import Mathlib

/-
Shallow embedding of src/particle_filter.cpp (a 2-D particle filter for
vehicle localization) and proofs about it.

Modelling conventions:
- C++ `double` is modelled as `ℝ`; the deterministic arithmetic of the
  source is transcribed literally.
- Random draws (`normal_distribution`, `discrete_distribution`) are
  modelled as explicit input streams: the caller supplies the sampled
  values (`ℕ → ℝ` per-particle sample streams, `ℕ → ℕ` draw indices).
- Out-of-bounds `std::vector` access (undefined behavior in C++) is
  modelled by `Option`: a function that would index out of bounds
  returns `none`.
- A `Particle*` argument that is only read through `->x`, `->y`,
  `->theta` is passed as those pose components.
-/

namespace ParticleFilterSpec

noncomputable section

/-- Observation record `LandmarkObs` (helper_functions.h): identifier and
planar coordinates. -/
structure LandmarkObs where
  id : Int
  x : ℝ
  y : ℝ

instance : Inhabited LandmarkObs := ⟨⟨0, 0, 0⟩⟩

/-- Particle record `Particle` (particle_filter.h): identifier, pose and
importance weight. -/
structure Particle where
  id : Int
  x : ℝ
  y : ℝ
  theta : ℝ
  weight : ℝ

instance : Inhabited Particle := ⟨⟨0, 0, 0, 0, 0⟩⟩

/-- Map landmark record `Map::single_landmark_s` (map.h): identifier and
fixed global position. -/
structure SingleLandmark where
  id_i : Int
  x_f : ℝ
  y_f : ℝ

/-- Filter state: the data members of class `ParticleFilter` that the
algorithms read and write (`num_particles`, `particles`, `weights`). -/
structure ParticleFilter where
  num_particles : ℕ
  particles : List Particle
  weights : List ℝ

/-- Modelled from the spec: the Euclidean distance helper `dist` is
declared in helper_functions.h, which is not part of src/; the spec
fixes it to be the Euclidean distance between the two points. -/
def dist (x1 y1 x2 y2 : ℝ) : ℝ :=
  Real.sqrt ((x2 - x1) * (x2 - x1) + (y2 - y1) * (y2 - y1))

/-- ParticleFilter::init (particle_filter.cpp:29-60). The three
`normal_distribution` draws for particle `i` are supplied by the sample
streams `gx`, `gy`, `gtheta`. Sets `num_particles` to 75 and every
weight (both copies) to 1. -/
def init (gx gy gtheta : ℕ → ℝ) : ParticleFilter :=
  { num_particles := 75,
    particles := (List.range 75).map (fun i =>
      { id := Int.ofNat i, x := gx i, y := gy i, theta := gtheta i, weight := 1 }),
    weights := (List.range 75).map (fun _ => (1 : ℝ)) }

/-- The deterministic (pre-noise) pose update of
ParticleFilter::prediction (particle_filter.cpp:95-103): the
constant-turn-rate branch is guarded by `fabs(yaw_rate) > 0.0`. -/
def predictPose (delta_t velocity yaw_rate x y theta : ℝ) : ℝ × ℝ × ℝ :=
  if |yaw_rate| > 0 then
    (x + (velocity / yaw_rate) * (Real.sin (theta + yaw_rate * delta_t) - Real.sin theta),
     y + (velocity / yaw_rate) * (Real.cos theta - Real.cos (theta + yaw_rate * delta_t)),
     theta + yaw_rate * delta_t)
  else
    (x + velocity * delta_t * Real.cos theta,
     y + velocity * delta_t * Real.sin theta,
     theta)

/-- One iteration of the prediction loop body
(particle_filter.cpp:93-112): deterministic pose update, additive noise
`n = (noise_x, noise_y, noise_theta)`, weight reset to 1. -/
def predictStep (delta_t velocity yaw_rate : ℝ) (p : Particle) (n : ℝ × ℝ × ℝ) : Particle :=
  { id := p.id,
    x := (predictPose delta_t velocity yaw_rate p.x p.y p.theta).1 + n.1,
    y := (predictPose delta_t velocity yaw_rate p.x p.y p.theta).2.1 + n.2.1,
    theta := (predictPose delta_t velocity yaw_rate p.x p.y p.theta).2.2 + n.2.2,
    weight := 1 }

/-- The prediction loop over the particle vector
(particle_filter.cpp:91-113); `noise i` supplies the three Gaussian
draws of iteration `i`. -/
def predictionLoop (delta_t velocity yaw_rate : ℝ) (noise : ℕ → ℝ × ℝ × ℝ) :
    List Particle → ℕ → List Particle
  | [], _ => []
  | p :: ps, i =>
      predictStep delta_t velocity yaw_rate p (noise i) ::
        predictionLoop delta_t velocity yaw_rate noise ps (i + 1)

/-- ParticleFilter::prediction (particle_filter.cpp:71-114): updates
every particle in place and resets both weight copies to 1. -/
def prediction (delta_t velocity yaw_rate : ℝ) (noise : ℕ → ℝ × ℝ × ℝ)
    (s : ParticleFilter) : ParticleFilter :=
  { s with
    particles := predictionLoop delta_t velocity yaw_rate noise s.particles 0,
    weights := (List.range s.num_particles).map (fun _ => (1 : ℝ)) }

/-- GetLandmarksWithinSensorRange (particle_filter.cpp:125-143): keeps
the map landmarks whose distance from the particle position
`(px, py)` is at most `sensor_range`, in map order. -/
def GetLandmarksWithinSensorRange (px py sensor_range : ℝ) :
    List SingleLandmark → List LandmarkObs
  | [] => []
  | lm :: rest =>
      if dist px py lm.x_f lm.y_f ≤ sensor_range then
        { id := lm.id_i, x := lm.x_f, y := lm.y_f } ::
          GetLandmarksWithinSensorRange px py sensor_range rest
      else
        GetLandmarksWithinSensorRange px py sensor_range rest

/-- ConvertToParticleCoordinates (particle_filter.cpp:153-171): rigid
rotation by the particle heading then translation by the particle
position; identifiers are copied unchanged. -/
def ConvertToParticleCoordinates (px py ptheta : ℝ)
    (observations : List LandmarkObs) : List LandmarkObs :=
  observations.map (fun o =>
    { id := o.id,
      x := px + o.x * Real.cos ptheta - o.y * Real.sin ptheta,
      y := py + o.x * Real.sin ptheta + o.y * Real.cos ptheta })

/-- The inner loop of ParticleFilter::dataAssociation
(particle_filter.cpp:226-234): scans the candidate list, starting from
the sentinel `distance_so_far = 100000.0` and `closest = 0`, replacing
the running best on a strict `<` comparison. `j` is the index of the
head of the remaining list. -/
def closestLoop (ox oy : ℝ) : List LandmarkObs → ℕ → ℝ → ℕ → ℝ × ℕ
  | [], _, dsf, cl => (dsf, cl)
  | p :: rest, j, dsf, cl =>
      if dist ox oy p.x p.y < dsf then
        closestLoop ox oy rest (j + 1) (dist ox oy p.x p.y) j
      else
        closestLoop ox oy rest (j + 1) dsf cl

/-- The per-observation body of ParticleFilter::dataAssociation
(particle_filter.cpp:224-238): run the scan, then read
`predicted[closest]` (out of bounds, hence `none`, when `closest` is
not a valid index) and overwrite the observation with the index and the
candidate coordinates. -/
def associateOne (predicted : List LandmarkObs) (o : LandmarkObs) : Option LandmarkObs :=
  match predicted[(closestLoop o.x o.y predicted 0 100000 0).2]? with
  | none => none
  | some c => some { id := ((closestLoop o.x o.y predicted 0 100000 0).2 : Int),
                     x := c.x, y := c.y }

/-- ParticleFilter::dataAssociation (particle_filter.cpp:220-239):
rewrites each observation with its matched candidate; `none` when any
iteration indexes out of bounds. -/
def dataAssociation (predicted : List LandmarkObs) :
    List LandmarkObs → Option (List LandmarkObs)
  | [] => some []
  | o :: os =>
      match associateOne predicted o, dataAssociation predicted os with
      | some o2, some rest => some (o2 :: rest)
      | _, _ => none

/-- The accumulation loop of UpdateParticleWeight
(particle_filter.cpp:197-210): multiplies the bivariate Gaussian
density of each (observation, matched mean) pair into the running
weight; `none` models the out-of-bounds read of
`transformed_observations[i]` when that vector is shorter. -/
def updateParticleWeightLoop (l1 sigmax sigmay : ℝ) :
    List LandmarkObs → List LandmarkObs → ℝ → Option ℝ
  | [], _, acc => some acc
  | _ :: _, [], _ => none
  | o :: os, t :: ts, acc =>
      updateParticleWeightLoop l1 sigmax sigmay os ts
        (acc * (l1 * Real.exp (-((o.x - t.x) * (o.x - t.x) / (2 * sigmax * sigmax) +
                                 (o.y - t.y) * (o.y - t.y) / (2 * sigmay * sigmay)))))

/-- UpdateParticleWeight (particle_filter.cpp:185-212): the particle
weight as the product of bivariate Gaussian densities, starting from
1.0, with normalizer `l1 = 1/(2 π σx σy)`. -/
def UpdateParticleWeight (sigmax sigmay : ℝ)
    (observations transformed_observations : List LandmarkObs) : Option ℝ :=
  updateParticleWeightLoop (1 / (2 * Real.pi * sigmax * sigmay)) sigmax sigmay
    observations transformed_observations 1

/-- The per-particle body of ParticleFilter::updateWeights
(particle_filter.cpp:253-276): cull landmarks to sensor range,
transform the observations into the global frame, associate, and
compute the new weight. -/
def particleWeight (sensor_range sigmax sigmay : ℝ)
    (observations : List LandmarkObs) (map_landmarks : List SingleLandmark)
    (p : Particle) : Option ℝ :=
  match dataAssociation
      (GetLandmarksWithinSensorRange p.x p.y sensor_range map_landmarks)
      (ConvertToParticleCoordinates p.x p.y p.theta observations) with
  | none => none
  | some chosen =>
      UpdateParticleWeight sigmax sigmay
        (ConvertToParticleCoordinates p.x p.y p.theta observations) chosen

/-- The loop of ParticleFilter::updateWeights over the particle vector:
each particle gets its recomputed weight stored in place. -/
def updateWeightsLoop (f : Particle → Option ℝ) : List Particle → Option (List Particle)
  | [] => some []
  | p :: ps =>
      match f p, updateWeightsLoop f ps with
      | some w, some rest => some ({ p with weight := w } :: rest)
      | _, _ => none

/-- ParticleFilter::updateWeights (particle_filter.cpp:250-278): runs
the per-particle pipeline and mirrors each new weight into the parallel
`weights` vector. -/
def updateWeights (sensor_range sigmax sigmay : ℝ)
    (observations : List LandmarkObs) (map_landmarks : List SingleLandmark)
    (s : ParticleFilter) : Option ParticleFilter :=
  match updateWeightsLoop
      (particleWeight sensor_range sigmax sigmay observations map_landmarks)
      s.particles with
  | none => none
  | some ps => some { s with particles := ps, weights := ps.map Particle.weight }

/-- ParticleFilter::resample (particle_filter.cpp:284-305): the
`discrete_distribution` draws are supplied by the index stream `draws`;
iteration `i` copies `particles[draws i]` (and its weight) into slot
`i` of the freshly built generation, which then replaces the old one. -/
def resample (draws : ℕ → ℕ) (s : ParticleFilter) : ParticleFilter :=
  { s with
    particles := (List.range s.num_particles).map
      (fun i => s.particles.getD (draws i) default),
    weights := (List.range s.num_particles).map
      (fun i => (s.particles.getD (draws i) default).weight) }

/-- Distance from the point `(ox, oy)` to the `k`-th candidate of the
list `l` (used to state properties of the association scan). -/
def candDist (ox oy : ℝ) (l : List LandmarkObs) (k : ℕ) : ℝ :=
  dist ox oy (l.getD k default).x (l.getD k default).y

/-- The parallel-array invariant of the spec's data model:
`weights[i] == particles[i].weight` for every index, with both vectors
of length `num_particles`. -/
def pfInv (s : ParticleFilter) : Prop :=
  s.particles.length = s.num_particles ∧
  s.weights.length = s.num_particles ∧
  ∀ i, i < s.num_particles → s.weights.getD i 0 = (s.particles.getD i default).weight

/-- A one-particle filter state with both weight copies equal to 1,
used to instantiate theorems at a concrete input. -/
def pfExample : ParticleFilter := ⟨1, [⟨0, 0, 0, 0, 1⟩], [1]⟩

end

theorem getD_map_range {α : Type} (f : ℕ → α) (d : α) (n i : ℕ) (h : i < n) :
    ((List.range n).map f).getD i d = f i := by
  rw [List.getD_eq_getElem _ _ (by simpa using h)]
  simp

theorem predictionLoop_length (dt v w : ℝ) (noise : ℕ → ℝ × ℝ × ℝ) :
    ∀ (l : List Particle) (j : ℕ), (predictionLoop dt v w noise l j).length = l.length := by
  intro l
  induction l with
  | nil => intro j; rfl
  | cons p ps ih => intro j; simp [predictionLoop, ih]

theorem predictionLoop_getD (dt v w : ℝ) (noise : ℕ → ℝ × ℝ × ℝ) :
    ∀ (l : List Particle) (j i : ℕ), i < l.length →
      (predictionLoop dt v w noise l j).getD i default =
        predictStep dt v w (l.getD i default) (noise (j + i)) := by
  intro l
  induction l with
  | nil => intro j i hi; simp at hi
  | cons p ps ih =>
    intro j i hi
    cases i with
    | zero => rfl
    | succ i =>
      have hi2 : i < ps.length := by simpa using hi
      have hj : j + 1 + i = j + (i + 1) := by omega
      calc (predictionLoop dt v w noise (p :: ps) j).getD (i + 1) default
          = (predictionLoop dt v w noise ps (j + 1)).getD i default := rfl
        _ = predictStep dt v w (ps.getD i default) (noise (j + 1 + i)) := ih (j + 1) i hi2
        _ = predictStep dt v w ((p :: ps).getD (i + 1) default) (noise (j + (i + 1))) := by
            rw [hj]; rfl

theorem getD_map_weight : ∀ (l : List Particle) (i : ℕ), i < l.length →
    (l.map Particle.weight).getD i 0 = (l.getD i default).weight := by
  intro l
  induction l with
  | nil => intro i hi; simp at hi
  | cons p ps ih =>
    intro i hi
    cases i with
    | zero => rfl
    | succ i => exact ih i (by simpa using hi)

/-- C10: with yaw rate exactly 0 the guard `fabs(yaw_rate) > 0.0`
selects the straight-line branch of the motion model, so the quotient
`velocity / yaw_rate` of the curved branch is never formed with a zero
divisor and the pose update is the straight-line closed form. -/
theorem predictPose_zero_yaw_rate (delta_t velocity x y theta : ℝ) :
    predictPose delta_t velocity 0 x y theta =
      (x + velocity * delta_t * Real.cos theta,
       y + velocity * delta_t * Real.sin theta,
       theta) := by
  unfold predictPose
  simp

/-- C2: the deterministic (pre-noise) pose update of `prediction` is the
constant-turn-rate closed form when `|yaw_rate| > 0` and the
straight-line closed form otherwise; with zero process noise the new
pose equals these closed forms exactly (and the weight is reset to 1). -/
theorem prediction_closed_form (delta_t velocity yaw_rate : ℝ) (s : ParticleFilter)
    (i : ℕ) (hi : i < s.particles.length) :
    (prediction delta_t velocity yaw_rate (fun _ => (0, 0, 0)) s).particles.getD i default =
      (if |yaw_rate| > 0 then
        { id := (s.particles.getD i default).id,
          x := (s.particles.getD i default).x + (velocity / yaw_rate) *
            (Real.sin ((s.particles.getD i default).theta + yaw_rate * delta_t) -
             Real.sin (s.particles.getD i default).theta),
          y := (s.particles.getD i default).y + (velocity / yaw_rate) *
            (Real.cos (s.particles.getD i default).theta -
             Real.cos ((s.particles.getD i default).theta + yaw_rate * delta_t)),
          theta := (s.particles.getD i default).theta + yaw_rate * delta_t,
          weight := 1 }
      else
        { id := (s.particles.getD i default).id,
          x := (s.particles.getD i default).x +
            velocity * delta_t * Real.cos (s.particles.getD i default).theta,
          y := (s.particles.getD i default).y +
            velocity * delta_t * Real.sin (s.particles.getD i default).theta,
          theta := (s.particles.getD i default).theta,
          weight := 1 }) := by
  show (predictionLoop delta_t velocity yaw_rate (fun _ => (0, 0, 0))
      s.particles 0).getD i default = _
  rw [predictionLoop_getD delta_t velocity yaw_rate (fun _ => (0, 0, 0)) s.particles 0 i hi]
  unfold predictStep predictPose
  by_cases h : |yaw_rate| > 0 <;> simp [h]

theorem prediction_closed_form_witness :
    (prediction 1 2 0 (fun _ => (0, 0, 0))
        ⟨1, [⟨7, 0, 0, 0, 1⟩], [1]⟩).particles.getD 0 default =
      (if |(0 : ℝ)| > 0 then
        { id := 7, x := 0 + 2 / 0 * (Real.sin (0 + 0 * 1) - Real.sin 0),
          y := 0 + 2 / 0 * (Real.cos 0 - Real.cos (0 + 0 * 1)),
          theta := 0 + 0 * 1, weight := 1 }
      else
        { id := 7, x := 0 + 2 * 1 * Real.cos 0, y := 0 + 2 * 1 * Real.sin 0,
          theta := 0, weight := 1 }) :=
  prediction_closed_form 1 2 0 ⟨1, [⟨7, 0, 0, 0, 1⟩], [1]⟩ 0 (by simp)

/-- C5: `resample` has no degenerate-weights check: on a state whose
weight vector is all zeros it still produces a full resampled
generation (here: every slot copies particle 0), rather than failing. -/
theorem resample_all_zero_weights :
    resample (fun _ => 0)
        ⟨2, [⟨0, 1, 2, 3, 0⟩, ⟨1, 4, 5, 6, 0⟩], [0, 0]⟩ =
      ⟨2, [⟨0, 1, 2, 3, 0⟩, ⟨0, 1, 2, 3, 0⟩], [0, 0]⟩ := rfl

/-- C6: `dataAssociation` against an empty candidate list with one
observation leaves `closest = 0` and reads `predicted[0]` out of
bounds (undefined behavior, modelled as `none`); no error value and no
unassociated marker is produced. -/
theorem dataAssociation_empty_candidates :
    dataAssociation [] [⟨0, 1, 2⟩] = none := rfl

/-- C7 counterexample: after `resample`, the particle in position 0 of
the new generation keeps the identifier of the drawn source particle
(here 5); it is not reassigned to its position index 0. -/
theorem resample_id_counterexample :
    ((resample (fun _ => 0) ⟨1, [⟨5, 0, 0, 0, 1⟩], [1]⟩).particles.getD 0 default).id = 5 ∧
    (5 : Int) ≠ 0 := ⟨rfl, by decide⟩

/-- C7 (amended): after `resample`, the particle at position `i` of the
new generation is a wholesale copy of the drawn source particle
`particles[draws i]`, identifier included. -/
theorem resample_copies_drawn_particle (draws : ℕ → ℕ) (s : ParticleFilter)
    (i : ℕ) (hi : i < s.num_particles) :
    (resample draws s).particles.getD i default = s.particles.getD (draws i) default := by
  show ((List.range s.num_particles).map
      (fun i => s.particles.getD (draws i) default)).getD i default = _
  rw [getD_map_range _ _ _ _ hi]

theorem resample_copies_drawn_particle_witness :
    (resample (fun _ => 1)
        ⟨2, [⟨3, 0, 0, 0, 1⟩, ⟨4, 0, 0, 0, 1⟩], [1, 1]⟩).particles.getD 0 default =
      ([⟨3, 0, 0, 0, 1⟩, ⟨4, 0, 0, 0, 1⟩] : List Particle).getD 1 default :=
  resample_copies_drawn_particle (fun _ => 1)
    ⟨2, [⟨3, 0, 0, 0, 1⟩, ⟨4, 0, 0, 0, 1⟩], [1, 1]⟩ 0 (by norm_num)

theorem updateParticleWeightLoop_spec (l1 sigmax sigmay : ℝ) :
    ∀ (obs trans : List LandmarkObs) (acc : ℝ), obs.length = trans.length →
      updateParticleWeightLoop l1 sigmax sigmay obs trans acc =
        some (acc * ((obs.zip trans).map (fun q =>
          l1 * Real.exp (-((q.1.x - q.2.x) * (q.1.x - q.2.x) / (2 * sigmax * sigmax) +
                           (q.1.y - q.2.y) * (q.1.y - q.2.y) / (2 * sigmay * sigmay))))).prod) := by
  intro obs
  induction obs with
  | nil => intro trans acc h; simp [updateParticleWeightLoop]
  | cons o os ih =>
    intro trans acc h
    cases trans with
    | nil => simp at h
    | cons t ts =>
      have h2 : os.length = ts.length := by simpa using h
      rw [show updateParticleWeightLoop l1 sigmax sigmay (o :: os) (t :: ts) acc =
          updateParticleWeightLoop l1 sigmax sigmay os ts
            (acc * (l1 * Real.exp (-((o.x - t.x) * (o.x - t.x) / (2 * sigmax * sigmax) +
                                     (o.y - t.y) * (o.y - t.y) / (2 * sigmay * sigmay))))) from rfl]
      rw [ih ts _ h2]
      simp [mul_assoc]

/-- C3: the particle weight computed by `UpdateParticleWeight` is the
product over all (observation, matched mean) pairs of the bivariate
Gaussian density with normalizer `1/(2 π σx σy)`, and an empty
observation sequence yields exactly the empty product 1.0. -/
theorem UpdateParticleWeight_product :
    (∀ (sigmax sigmay : ℝ) (observations transformed : List LandmarkObs),
      observations.length = transformed.length →
      UpdateParticleWeight sigmax sigmay observations transformed =
        some (((observations.zip transformed).map (fun q =>
          1 / (2 * Real.pi * sigmax * sigmay) *
            Real.exp (-((q.1.x - q.2.x) ^ 2 / (2 * sigmax ^ 2)) -
                      (q.1.y - q.2.y) ^ 2 / (2 * sigmay ^ 2)))).prod)) ∧
    (∀ (sigmax sigmay : ℝ) (transformed : List LandmarkObs),
      UpdateParticleWeight sigmax sigmay [] transformed = some 1) := by
  constructor
  · intro sx sy obs trans h
    rw [UpdateParticleWeight, updateParticleWeightLoop_spec _ _ _ _ _ _ h, one_mul]
    have hfun : (fun (q : LandmarkObs × LandmarkObs) =>
        1 / (2 * Real.pi * sx * sy) *
          Real.exp (-((q.1.x - q.2.x) * (q.1.x - q.2.x) / (2 * sx * sx) +
                      (q.1.y - q.2.y) * (q.1.y - q.2.y) / (2 * sy * sy)))) =
        (fun (q : LandmarkObs × LandmarkObs) =>
        1 / (2 * Real.pi * sx * sy) *
          Real.exp (-((q.1.x - q.2.x) ^ 2 / (2 * sx ^ 2)) -
                    (q.1.y - q.2.y) ^ 2 / (2 * sy ^ 2))) := by
      funext q
      congr 1
      congr 1
      ring
    rw [hfun]
  · intro sx sy trans
    rfl

theorem UpdateParticleWeight_product_witness :
    UpdateParticleWeight 1 1 [⟨0, 0, 0⟩] [⟨0, 0, 0⟩] =
      some ((([(⟨0, 0, 0⟩, ⟨0, 0, 0⟩)] : List (LandmarkObs × LandmarkObs)).map (fun q =>
        1 / (2 * Real.pi * 1 * 1) *
          Real.exp (-((q.1.x - q.2.x) ^ 2 / (2 * 1 ^ 2)) -
                    (q.1.y - q.2.y) ^ 2 / (2 * 1 ^ 2)))).prod) :=
  UpdateParticleWeight_product.1 1 1 [⟨0, 0, 0⟩] [⟨0, 0, 0⟩] rfl

theorem updateWeightsLoop_frame (f : Particle → Option ℝ) :
    ∀ (ps qs : List Particle), updateWeightsLoop f ps = some qs →
      qs.length = ps.length ∧
      ∀ i, i < ps.length →
        (qs.getD i default).id = (ps.getD i default).id ∧
        (qs.getD i default).x = (ps.getD i default).x ∧
        (qs.getD i default).y = (ps.getD i default).y ∧
        (qs.getD i default).theta = (ps.getD i default).theta := by
  intro ps
  induction ps with
  | nil =>
    intro qs h
    simp only [updateWeightsLoop, Option.some.injEq] at h
    subst h
    exact ⟨rfl, by intro i hi; simp at hi⟩
  | cons p ps ih =>
    intro qs h
    simp only [updateWeightsLoop] at h
    cases hp : f p with
    | none => rw [hp] at h; simp at h
    | some w =>
      cases hl : updateWeightsLoop f ps with
      | none => rw [hp, hl] at h; simp at h
      | some rest =>
        rw [hp, hl] at h
        simp only [Option.some.injEq] at h
        subst h
        obtain ⟨hlen, hfields⟩ := ih rest hl
        refine ⟨by simp [hlen], ?_⟩
        intro i hi
        cases i with
        | zero => exact ⟨rfl, rfl, rfl, rfl⟩
        | succ i => exact hfields i (by simpa using hi)

/-- C9: `updateWeights` leaves every particle's `id`, `x`, `y`, `theta`
unchanged (and `num_particles` and the particle count unchanged); the
only fields it rewrites are the particle weights and the parallel
`weights` vector. -/
theorem updateWeights_frame (sr sx sy : ℝ) (obs : List LandmarkObs)
    (lm : List SingleLandmark) (s s' : ParticleFilter)
    (h : updateWeights sr sx sy obs lm s = some s') :
    s'.num_particles = s.num_particles ∧
    s'.particles.length = s.particles.length ∧
    s'.weights = s'.particles.map Particle.weight ∧
    ∀ i, i < s.particles.length →
      (s'.particles.getD i default).id = (s.particles.getD i default).id ∧
      (s'.particles.getD i default).x = (s.particles.getD i default).x ∧
      (s'.particles.getD i default).y = (s.particles.getD i default).y ∧
      (s'.particles.getD i default).theta = (s.particles.getD i default).theta := by
  unfold updateWeights at h
  cases hl : updateWeightsLoop (particleWeight sr sx sy obs lm) s.particles with
  | none => rw [hl] at h; simp at h
  | some ps =>
    rw [hl] at h
    simp only [Option.some.injEq] at h
    subst h
    obtain ⟨hlen, hfields⟩ := updateWeightsLoop_frame _ _ _ hl
    exact ⟨rfl, hlen, rfl, hfields⟩

theorem updateWeights_frame_witness :
    pfExample.num_particles = pfExample.num_particles ∧
    pfExample.particles.length = pfExample.particles.length ∧
    pfExample.weights = pfExample.particles.map Particle.weight ∧
    ∀ i, i < pfExample.particles.length →
      (pfExample.particles.getD i default).id = (pfExample.particles.getD i default).id ∧
      (pfExample.particles.getD i default).x = (pfExample.particles.getD i default).x ∧
      (pfExample.particles.getD i default).y = (pfExample.particles.getD i default).y ∧
      (pfExample.particles.getD i default).theta = (pfExample.particles.getD i default).theta :=
  updateWeights_frame 3 1 1 [] [] pfExample pfExample rfl

theorem updateWeightsLoop_idem (f : Particle → Option ℝ)
    (hf : ∀ (p : Particle) (w : ℝ), f { p with weight := w } = f p) :
    ∀ (ps qs : List Particle), updateWeightsLoop f ps = some qs →
      updateWeightsLoop f qs = some qs := by
  intro ps
  induction ps with
  | nil =>
    intro qs h
    simp only [updateWeightsLoop, Option.some.injEq] at h
    subst h
    rfl
  | cons p ps ih =>
    intro qs h
    simp only [updateWeightsLoop] at h
    cases hp : f p with
    | none => rw [hp] at h; simp at h
    | some w =>
      cases hl : updateWeightsLoop f ps with
      | none => rw [hp, hl] at h; simp at h
      | some rest =>
        rw [hp, hl] at h
        simp only [Option.some.injEq] at h
        subst h
        have h1 : f { p with weight := w } = some w := by rw [hf]; exact hp
        have h2 := ih rest hl
        simp only [updateWeightsLoop, h1, h2]

/-- C8: calling `updateWeights` twice in succession with identical
arguments and no intervening operation returns, on the second call,
exactly the state produced by the first call (data association and
weighting depend only on the particle poses, which the first call does
not change). -/
theorem updateWeights_idempotent (sr sx sy : ℝ) (obs : List LandmarkObs)
    (lm : List SingleLandmark) (s s' : ParticleFilter)
    (h : updateWeights sr sx sy obs lm s = some s') :
    updateWeights sr sx sy obs lm s' = some s' := by
  unfold updateWeights at h ⊢
  cases hl : updateWeightsLoop (particleWeight sr sx sy obs lm) s.particles with
  | none => rw [hl] at h; simp at h
  | some ps =>
    rw [hl] at h
    simp only [Option.some.injEq] at h
    subst h
    have hidem := updateWeightsLoop_idem (particleWeight sr sx sy obs lm)
      (fun p w => rfl) s.particles ps hl
    simp [hidem]

theorem updateWeights_idempotent_witness :
    updateWeights 2 1 1 [] [] pfExample = some pfExample :=
  updateWeights_idempotent 2 1 1 [] [] pfExample pfExample rfl

/-- C4: the parallel-array invariant `weights[i] == particles[i].weight`
holds after each of `init`, `prediction`, `updateWeights` and
`resample`, and `num_particles` is fixed at 75 by `init` and left
unchanged by every subsequent operation. -/
theorem filter_parallel_invariant :
    (∀ gx gy gtheta, pfInv (init gx gy gtheta) ∧ (init gx gy gtheta).num_particles = 75) ∧
    (∀ (delta_t velocity yaw_rate : ℝ) (noise : ℕ → ℝ × ℝ × ℝ) (s : ParticleFilter),
      pfInv s →
      pfInv (prediction delta_t velocity yaw_rate noise s) ∧
      (prediction delta_t velocity yaw_rate noise s).num_particles = s.num_particles) ∧
    (∀ (sr sx sy : ℝ) (obs : List LandmarkObs) (lm : List SingleLandmark)
      (s s' : ParticleFilter), pfInv s → updateWeights sr sx sy obs lm s = some s' →
      pfInv s' ∧ s'.num_particles = s.num_particles) ∧
    (∀ (draws : ℕ → ℕ) (s : ParticleFilter),
      pfInv (resample draws s) ∧ (resample draws s).num_particles = s.num_particles) := by
  refine ⟨?_, ?_, ?_, ?_⟩
  · intro gx gy gtheta
    refine ⟨⟨by simp [init], by simp [init], ?_⟩, rfl⟩
    intro i hi
    have hi75 : i < 75 := hi
    show ((List.range 75).map (fun _ => (1 : ℝ))).getD i 0 = _
    rw [getD_map_range _ _ _ _ hi75]
    show (1 : ℝ) = (((List.range 75).map (fun i =>
      ({ id := Int.ofNat i, x := gx i, y := gy i, theta := gtheta i, weight := 1 } :
        Particle))).getD i default).weight
    rw [getD_map_range _ _ _ _ hi75]
  · intro dt v w noise s hs
    obtain ⟨h1, h2, h3⟩ := hs
    refine ⟨⟨?_, by simp [prediction], ?_⟩, rfl⟩
    · show (predictionLoop dt v w noise s.particles 0).length = s.num_particles
      rw [predictionLoop_length, h1]
    · intro i hi
      have hiN : i < s.num_particles := hi
      show ((List.range s.num_particles).map (fun _ => (1 : ℝ))).getD i 0 = _
      rw [getD_map_range _ _ _ _ hiN]
      show (1 : ℝ) =
        ((predictionLoop dt v w noise s.particles 0).getD i default).weight
      rw [predictionLoop_getD dt v w noise s.particles 0 i (by rw [h1]; exact hiN)]
      rfl
  · intro sr sx sy obs lm s s' hs h
    obtain ⟨h1, h2, h3⟩ := hs
    unfold updateWeights at h
    cases hl : updateWeightsLoop (particleWeight sr sx sy obs lm) s.particles with
    | none => rw [hl] at h; simp at h
    | some ps =>
      rw [hl] at h
      simp only [Option.some.injEq] at h
      subst h
      obtain ⟨hlen, -⟩ := updateWeightsLoop_frame _ _ _ hl
      have hlen2 : ps.length = s.num_particles := by rw [hlen, h1]
      refine ⟨⟨hlen2, by simpa using hlen2, ?_⟩, rfl⟩
      intro i hi
      have hiN : i < s.num_particles := hi
      show (ps.map Particle.weight).getD i 0 = (ps.getD i default).weight
      exact getD_map_weight ps i (by rw [hlen2]; exact hiN)
  · intro draws s
    refine ⟨⟨by simp [resample], by simp [resample], ?_⟩, rfl⟩
    intro i hi
    have hiN : i < s.num_particles := hi
    show ((List.range s.num_particles).map
        (fun i => (s.particles.getD (draws i) default).weight)).getD i 0 = _
    rw [getD_map_range _ _ _ _ hiN]
    show (s.particles.getD (draws i) default).weight =
      (((List.range s.num_particles).map
        (fun i => s.particles.getD (draws i) default)).getD i default).weight
    rw [getD_map_range _ _ _ _ hiN]

theorem filter_parallel_invariant_witness :
    pfInv (init (fun _ => 0) (fun _ => 0) (fun _ => 0)) ∧
    pfInv (prediction 1 1 0 (fun _ => (0, 0, 0)) pfExample) ∧
    pfInv pfExample ∧
    pfInv (resample (fun _ => 0) pfExample) := by
  obtain ⟨hinit, hpred, hupd, hres⟩ := filter_parallel_invariant
  have hex : pfInv pfExample := by
    refine ⟨rfl, rfl, ?_⟩
    intro i hi
    have hi1 : i < 1 := hi
    have : i = 0 := by omega
    subst this
    rfl
  exact ⟨(hinit (fun _ => 0) (fun _ => 0) (fun _ => 0)).1,
         (hpred 1 1 0 (fun _ => (0, 0, 0)) pfExample hex).1,
         (hupd 1 1 1 [] [] pfExample pfExample hex rfl).1,
         (hres (fun _ => 0) pfExample).1⟩

theorem closestLoop_spec (ox oy : ℝ) :
    ∀ (l : List LandmarkObs) (j cl : ℕ) (dsf : ℝ),
      (closestLoop ox oy l j dsf cl).1 ≤ dsf ∧
      (∀ k, k < l.length → (closestLoop ox oy l j dsf cl).1 ≤ candDist ox oy l k) ∧
      (closestLoop ox oy l j dsf cl = (dsf, cl) ∨
        ∃ k, k < l.length ∧
          (closestLoop ox oy l j dsf cl).1 = candDist ox oy l k ∧
          (closestLoop ox oy l j dsf cl).2 = j + k ∧
          (closestLoop ox oy l j dsf cl).1 < dsf ∧
          ∀ m, m < k → (closestLoop ox oy l j dsf cl).1 < candDist ox oy l m) := by
  intro l
  induction l with
  | nil =>
    intro j cl dsf
    exact ⟨le_refl _, by intro k hk; simp at hk, Or.inl rfl⟩
  | cons p rest ih =>
    intro j cl dsf
    by_cases hd : dist ox oy p.x p.y < dsf
    · have heq : closestLoop ox oy (p :: rest) j dsf cl =
          closestLoop ox oy rest (j + 1) (dist ox oy p.x p.y) j := by
        simp only [closestLoop]
        rw [if_pos hd]
      obtain ⟨ihle, ihmin, ihdisj⟩ := ih (j + 1) j (dist ox oy p.x p.y)
      rw [heq]
      refine ⟨le_trans ihle (le_of_lt hd), ?_, ?_⟩
      · intro k hk
        cases k with
        | zero => exact ihle
        | succ k => exact ihmin k (by simpa using hk)
      · cases ihdisj with
        | inl h =>
          right
          refine ⟨0, by simp, ?_, ?_, ?_, ?_⟩
          · rw [h]
            rfl
          · rw [h]
            rfl
          · rw [h]; exact hd
          · intro m hm; exact absurd hm (Nat.not_lt_zero m)
        | inr h =>
          obtain ⟨k, hk, h1, h2, h3, h4⟩ := h
          right
          refine ⟨k + 1, by simpa using hk, h1, ?_, lt_trans h3 hd, ?_⟩
          · rw [h2]; omega
          · intro m hm
            cases m with
            | zero => exact h3
            | succ m => exact h4 m (by omega)
    · have heq : closestLoop ox oy (p :: rest) j dsf cl =
          closestLoop ox oy rest (j + 1) dsf cl := by
        simp only [closestLoop]
        rw [if_neg hd]
      obtain ⟨ihle, ihmin, ihdisj⟩ := ih (j + 1) cl dsf
      rw [heq]
      have hd2 : dsf ≤ dist ox oy p.x p.y := le_of_not_lt hd
      refine ⟨ihle, ?_, ?_⟩
      · intro k hk
        cases k with
        | zero => exact le_trans ihle hd2
        | succ k => exact ihmin k (by simpa using hk)
      · cases ihdisj with
        | inl h => exact Or.inl h
        | inr h =>
          obtain ⟨k, hk, h1, h2, h3, h4⟩ := h
          right
          refine ⟨k + 1, by simpa using hk, h1, ?_, h3, ?_⟩
          · rw [h2]; omega
          · intro m hm
            cases m with
            | zero => exact lt_of_lt_of_le h3 hd2
            | succ m => exact h4 m (by omega)

theorem closestLoop_snd_lt (ox oy : ℝ) (l : List LandmarkObs) (hne : l ≠ []) :
    (closestLoop ox oy l 0 100000 0).2 < l.length := by
  obtain ⟨-, -, hdisj⟩ := closestLoop_spec ox oy l 0 0 100000
  cases hdisj with
  | inl h =>
    rw [h]
    cases l with
    | nil => exact absurd rfl hne
    | cons a t => simp
  | inr h =>
    obtain ⟨k, hk, -, h2, -, -⟩ := h
    rw [h2]
    simpa using hk

theorem associateOne_of_ne (predicted : List LandmarkObs) (o : LandmarkObs)
    (hne : predicted ≠ []) :
    associateOne predicted o =
      some { id := Int.ofNat (closestLoop o.x o.y predicted 0 100000 0).2,
             x := (predicted.getD (closestLoop o.x o.y predicted 0 100000 0).2 default).x,
             y := (predicted.getD (closestLoop o.x o.y predicted 0 100000 0).2 default).y } := by
  have hc := closestLoop_snd_lt o.x o.y predicted hne
  unfold associateOne
  rw [List.getElem?_eq_getElem hc, List.getD_eq_getElem _ _ hc]
  rfl

theorem dataAssociation_spec (predicted : List LandmarkObs) (hne : predicted ≠ []) :
    ∀ os : List LandmarkObs, ∃ out, dataAssociation predicted os = some out ∧
      out.length = os.length ∧
      ∀ i, i < os.length →
        out.getD i default =
          { id := Int.ofNat (closestLoop (os.getD i default).x (os.getD i default).y
              predicted 0 100000 0).2,
            x := (predicted.getD (closestLoop (os.getD i default).x (os.getD i default).y
              predicted 0 100000 0).2 default).x,
            y := (predicted.getD (closestLoop (os.getD i default).x (os.getD i default).y
              predicted 0 100000 0).2 default).y } := by
  intro os
  induction os with
  | nil => exact ⟨[], rfl, rfl, by intro i hi; simp at hi⟩
  | cons o os ih =>
    obtain ⟨out, hout, hlen, hpt⟩ := ih
    refine ⟨{ id := Int.ofNat (closestLoop o.x o.y predicted 0 100000 0).2,
              x := (predicted.getD (closestLoop o.x o.y predicted 0 100000 0).2 default).x,
              y := (predicted.getD (closestLoop o.x o.y predicted 0 100000 0).2 default).y }
        :: out, ?_, by simpa using hlen, ?_⟩
    · show (match associateOne predicted o, dataAssociation predicted os with
        | some o2, some rest => some (o2 :: rest)
        | _, _ => none) = _
      rw [associateOne_of_ne predicted o hne, hout]
    · intro i hi
      cases i with
      | zero => rfl
      | succ i => exact hpt i (by simpa using hi)

/-- C1 (amended): for a non-empty candidate list, `dataAssociation`
succeeds and, for every observation that has at least one candidate at
distance strictly below the sentinel 100000.0, the observation is
rewritten with the index `c` of a candidate of minimal Euclidean
distance, with strictly smaller distance than every earlier candidate
(first-in-candidate-order tie break), and with that candidate's
coordinates. -/
theorem dataAssociation_nearest_neighbor (predicted observations : List LandmarkObs)
    (hne : predicted ≠ []) :
    ∃ out, dataAssociation predicted observations = some out ∧
      out.length = observations.length ∧
      ∀ i, i < observations.length →
        (∃ k, k < predicted.length ∧
          candDist (observations.getD i default).x (observations.getD i default).y
            predicted k < 100000) →
        ∃ c, c < predicted.length ∧
          out.getD i default =
            { id := Int.ofNat c,
              x := (predicted.getD c default).x,
              y := (predicted.getD c default).y } ∧
          (∀ k, k < predicted.length →
            candDist (observations.getD i default).x (observations.getD i default).y
              predicted c ≤
            candDist (observations.getD i default).x (observations.getD i default).y
              predicted k) ∧
          (∀ m, m < c →
            candDist (observations.getD i default).x (observations.getD i default).y
              predicted c <
            candDist (observations.getD i default).x (observations.getD i default).y
              predicted m) := by
  obtain ⟨out, hout, hlen, hpt⟩ := dataAssociation_spec predicted hne observations
  refine ⟨out, hout, hlen, ?_⟩
  intro i hi hex
  obtain ⟨k0, hk0, hd0⟩ := hex
  obtain ⟨hle, hmin, hdisj⟩ :=
    closestLoop_spec (observations.getD i default).x (observations.getD i default).y
      predicted 0 0 100000
  cases hdisj with
  | inl h =>
    exfalso
    have hb := hmin k0 hk0
    rw [h] at hb
    exact absurd (lt_of_le_of_lt hb hd0) (lt_irrefl _)
  | inr h =>
    obtain ⟨k, hk, h1, h2, h3, h4⟩ := h
    have hc : (closestLoop (observations.getD i default).x (observations.getD i default).y
        predicted 0 100000 0).2 = k := by rw [h2]; omega
    refine ⟨k, hk, ?_, ?_, ?_⟩
    · rw [hpt i hi, hc]
    · intro k2 hk2
      have := hmin k2 hk2
      rw [h1] at this
      exact this
    · intro m hm
      have := h4 m hm
      rw [h1] at this
      exact this

theorem dataAssociation_nearest_neighbor_witness :
    ∃ out, dataAssociation [⟨7, 0, 0⟩] [⟨0, 3, 4⟩] = some out ∧ out.length = 1 := by
  obtain ⟨out, hout, hlen, -⟩ :=
    dataAssociation_nearest_neighbor [⟨7, 0, 0⟩] [⟨0, 3, 4⟩] (by simp)
  exact ⟨out, hout, hlen⟩

theorem dist_zero_axis (a : ℝ) (ha : 0 ≤ a) : dist 0 0 0 a = a := by
  unfold dist
  have h : ((0 : ℝ) - 0) * ((0 : ℝ) - 0) + (a - 0) * (a - 0) = a * a := by ring
  rw [h, Real.sqrt_mul_self ha]

/-- C1 counterexample: with both candidates farther than the sentinel
100000.0 (distances 200000 and 150000 from the observation), the scan
never updates `closest`, so the observation is matched to candidate
index 0 (coordinates (0, 200000)) although candidate 1 is strictly
closer: the unconditional minimal-distance claim is false. -/
theorem dataAssociation_sentinel_counterexample :
    dataAssociation [⟨1, 0, 200000⟩, ⟨2, 0, 150000⟩] [⟨0, 0, 0⟩] =
      some [⟨0, 0, 200000⟩] ∧
    dist 0 0 0 150000 < dist 0 0 0 200000 := by
  have h1 : dist 0 0 0 200000 = 200000 := dist_zero_axis 200000 (by norm_num)
  have h2 : dist 0 0 0 150000 = 150000 := dist_zero_axis 150000 (by norm_num)
  have hstep : closestLoop (0 : ℝ) 0 [⟨1, 0, 200000⟩, ⟨2, 0, 150000⟩] 0 100000 0 =
      (100000, 0) := by
    simp only [closestLoop, h1, h2]
    norm_num
  constructor
  · simp only [dataAssociation, associateOne]
    rw [hstep]
    rfl
  · rw [h1, h2]; norm_num

end ParticleFilterSpec
